import Mathlib

/-!
Verification of the `Sample` container from `pyddm/ddm/sample.py`.

The Python module stores reaction-time data in three partitions (correct,
error, non-decision) together with per-trial condition values, and offers
subsetting, combination, iteration and statistics operations.  The
definitions below are a shallow embedding of that code: numpy arrays of
numbers become `List ℚ`, the keyword-argument condition dictionary becomes
an insertion-ordered association list, Python exceptions become an explicit
`Except` error type, and numpy's read-only flag becomes an explicit list of
frozen buffers.  Constructor assertion failures are `validationError`,
numpy shape mismatches in arithmetic are `valueError`, the assertion at the
top of `__add__` is `incompatibilityError`, and the guard of `t_domain`
(a paranoid `@requires` clause) is `domainError`.
-/

namespace PyDDM

/-- Condition values and reaction times are numbers; modelled exactly as rationals. -/
abbrev Val := ℚ

/-- The Python-level failure modes relevant to this module. -/
inductive PyError
  | validationError
  | incompatibilityError
  | valueError
  | zeroDivisionError
  | indexError
  | keyError
  | domainError
  deriving DecidableEq

/-- One condition: the tuple passed as a keyword argument to `Sample.__init__`.
A Python 2-tuple is `nd = none`, a 3-tuple is `nd = some l`. -/
structure Cond where
  corr : List Val
  err : List Val
  nd : Option (List Val)
  deriving DecidableEq

/-- The `Sample` object: correct times, error times, the non-decision count and
the condition dictionary (insertion-ordered, as a Python dict). -/
structure Sample where
  corr : List Val
  err : List Val
  non_decision : Nat
  conditions : List (String × Cond)
  deriving DecidableEq

/-- The per-condition shape assertions of `Sample.__init__`:
`len(v[0]) == len(corr)`, `len(v[1]) == len(err)`, and either
`len(v[2]) == non_decision` (3-tuple) or `non_decision == 0` (2-tuple). -/
def condOK (ncorr nerr nd : Nat) (c : Cond) : Bool :=
  c.corr.length == ncorr && c.err.length == nerr &&
    (match c.nd with
     | some l => l.length == nd
     | none => nd == 0)

/-- `Sample.__init__`: runs the shape assertions over every condition and
stores the data unchanged.  An assertion failure is a `validationError`. -/
def mkSample (corr err : List Val) (nd : Nat) (conds : List (String × Cond)) :
    Except PyError Sample :=
  if conds.all (fun kc => condOK corr.length err.length nd kc.2)
  then .ok ⟨corr, err, nd, conds⟩ else .error .validationError

/-- A `Sample` value that satisfies the constructor's assertions. -/
def Sample.validB (s : Sample) : Bool :=
  s.conditions.all fun kc => condOK s.corr.length s.err.length s.non_decision kc.2

/-- `Sample.__len__`: `len(self.corr) + len(self.err) + self.non_decision`. -/
def Sample.len (s : Sample) : Nat :=
  s.corr.length + s.err.length + s.non_decision

/-- Identifies one stored numpy buffer of a `Sample`. -/
inductive Buffer
  | corrTimes
  | errTimes
  | condCorr (k : String)
  | condErr (k : String)
  | condNd (k : String)
  deriving DecidableEq

/-- The buffers on which `Sample.__init__` sets `flags.writeable = False`:
`self.corr`, `self.err`, and `v[0]` and `v[1]` of every condition tuple.
The third element `v[2]` of a 3-tuple is never touched by the constructor. -/
def initFrozen (conds : List (String × Cond)) : List Buffer :=
  [Buffer.corrTimes, Buffer.errTimes] ++
    conds.flatMap fun kc => [Buffer.condCorr kc.1, Buffer.condErr kc.1]

/-- `Sample.prob_correct`: `len(self.corr)/len(self)`; dividing by a zero
length raises `ZeroDivisionError` in Python. -/
def Sample.prob_correct (s : Sample) : Except PyError ℚ :=
  if s.len = 0 then .error .zeroDivisionError
  else .ok ((s.corr.length : ℚ) / (s.len : ℚ))

/-- `Sample.prob_error`: `len(self.err)/len(self)`. -/
def Sample.prob_error (s : Sample) : Except PyError ℚ :=
  if s.len = 0 then .error .zeroDivisionError
  else .ok ((s.err.length : ℚ) / (s.len : ℚ))

/-- `Sample.prob_undecided`: `self.non_decision/len(self)`. -/
def Sample.prob_undecided (s : Sample) : Except PyError ℚ :=
  if s.len = 0 then .error .zeroDivisionError
  else .ok ((s.non_decision : ℚ) / (s.len : ℚ))

/-- What one call of `_Sample_Iter_Wraper.next` can do. -/
inductive IterStep
  | stopIteration
  | yieldPair (rt : Val) (conds : List (String × Val))
  | indexError
  deriving DecidableEq

/-- Monadic map over `Option`, building results in order. -/
def mapMO {α β : Type} (f : α → Option β) : List α → Option (List β)
  | [] => some []
  | x :: xs =>
    match f x, mapMO f xs with
    | some y, some ys => some (y :: ys)
    | _, _ => none

/-- `_Sample_Iter_Wraper.next` with counter `i` (the value of `self.i` before
the increment).  The code stops only when `self.i == len(self.sample)` (the
TOTAL trial count) and otherwise indexes the chosen partition array, so an
out-of-range access is an `IndexError`. -/
def iterNext (s : Sample) (correct : Bool) (i : Nat) : IterStep :=
  if i = s.len then .stopIteration
  else
    let rt := if correct then s.corr else s.err
    match rt.get? i with
    | none => .indexError
    | some t =>
      match mapMO (fun kc =>
          ((if correct then kc.2.corr else kc.2.err).get? i).map
            fun v => (kc.1, v)) s.conditions with
      | none => .indexError
      | some cs => .yieldPair t cs

/-- Column `j` of a list of rows.  Callers are guarded by the paranoid
`@accepts(NDArray(d=2, ...))` precondition, under which every row has the
same length and index `j` is in range, so the default is never consulted. -/
def pyColumn (rows : List (List Val)) (j : Nat) : List Val :=
  rows.map fun r => r.getD j 0

/-- `Sample.from_numpy_array`.  Row selection: `c = data[:,1].astype(bool)`
keeps rows with a nonzero flag, `nc = (1-data[:,1]).astype(bool)` keeps rows
where `1 - flag` is nonzero.  The conditions are built from
`enumerate(column_names[2:])` with data column `i+2`, each with an empty
(`[]`, i.e. `some []`) non-decision list, and the result goes through the
constructor.  The `pt` whole-number coercion changes numpy dtype only, not
numeric value, so it is the identity on `ℚ`. -/
def fromNumpyArray (data : List (List Val)) (column_names : List String) :
    Except PyError Sample :=
  let cRows := data.filter fun r => decide (r.getD 1 0 ≠ 0)
  let ncRows := data.filter fun r => decide ((1 : Val) - r.getD 1 0 ≠ 0)
  let conds := (column_names.drop 2).enum.map fun ik =>
    (ik.2, Cond.mk (pyColumn cRows (ik.1 + 2)) (pyColumn ncRows (ik.1 + 2)) (some []))
  mkSample (pyColumn cRows 0) (pyColumn ncRows 0) 0 conds

/-- `np.linspace(a, b, num)` over exact rationals: `num` evenly spaced points
from `a` to `b` inclusive. -/
def linspace (a b : ℚ) (num : Nat) : List ℚ :=
  if num = 0 then []
  else if num = 1 then [a]
  else (List.range num).map fun i : ℕ => a + (b - a) * (i : ℚ) / ((num : ℚ) - 1)

/-- `Sample.t_domain(dt, T_dur)`: guarded by `@accepts(Positive, Positive)`
(a `validationError` here) and `@requires('T_dur/dt < 1e5')` (the spec's
`DomainError`); then `np.linspace(0, T_dur, T_dur/dt+1)`, where numpy
truncates the point count to an integer. -/
def t_domain (dt T_dur : ℚ) : Except PyError (List ℚ) :=
  if 0 < dt ∧ 0 < T_dur then
    if T_dur / dt < 100000 then
      .ok (linspace 0 T_dur (⌊T_dur / dt + 1⌋).toNat)
    else .error .domainError
  else .error .validationError

/-- A value passed as a keyword filter to `Sample.subset`: a Python function
(callable), a list (supports membership testing), or a bare number. -/
inductive SubsetFilter
  | pred (f : Val → Bool)
  | mem (xs : List Val)
  | scalar (v : Val)

/-- Python `==` between a stored condition value (a number) and the filter
object itself, as evaluated by the `else` branch of `subset`.  A number is
never `==` to a function or list object, so only the scalar case can hold. -/
def pyEqObj (x : Val) (f : SubsetFilter) : Bool :=
  match f with
  | .scalar v => x == v
  | .pred _ => false
  | .mem _ => false

/-- Pointwise `np.logical_and`, truncating to the shorter operand. -/
def andMask (mask bs : List Bool) : List Bool :=
  List.zipWith and mask bs

/-- One keyword filter applied to one partition's mask, with the exact
control flow of `subset`: the callable test applies `if` the filter is
callable, and then EITHER the membership test (`if` the filter is a
container) OR the equality test (`else`) applies.  A callable filter thus
gets both the callable mask and the (always-false) equality mask. -/
def stepMask (mask : List Bool) (f : SubsetFilter) (xs : List Val) : List Bool :=
  let m1 := match f with
    | .pred p => andMask mask (xs.map p)
    | _ => mask
  match f with
  | .mem s => andMask m1 (xs.map fun x => s.contains x)
  | g => andMask m1 (xs.map fun x => pyEqObj x g)

/-- `itertools.compress`: keep the elements whose mask entry is true,
stopping at the shorter of the two sequences. -/
def compress {α : Type} (xs : List α) (mask : List Bool) : List α :=
  ((xs.zip mask).filter fun p => p.2).map Prod.fst

/-- `sum(mask)` over a boolean mask. -/
def countTrue (mask : List Bool) : Nat := mask.countP id

/-- The three masks built by the filter loop of `subset`. -/
structure Masks where
  mc : List Bool
  me : List Bool
  mn : List Bool

/-- The filter loop of `subset`.  Each keyword argument looks up its
condition (Python `KeyError` if the name is absent) and strengthens the
three masks; `mask_non` is reset to `[]` whenever `non_decision == 0`, and a
2-tuple condition has no `v[2]` to index when `non_decision > 0`, which is a
Python `IndexError`. -/
def subsetLoop (s : Sample) :
    List (String × SubsetFilter) → Masks → Except PyError Masks
  | [], m => .ok m
  | kf :: rest, m =>
    match s.conditions.lookup kf.1 with
    | none => .error .keyError
    | some c =>
      if s.non_decision = 0 then
        subsetLoop s rest ⟨stepMask m.mc kf.2 c.corr, stepMask m.me kf.2 c.err, []⟩
      else
        match c.nd with
        | some l =>
          subsetLoop s rest
            ⟨stepMask m.mc kf.2 c.corr, stepMask m.me kf.2 c.err, stepMask m.mn kf.2 l⟩
        | none => .error .indexError

/-- `Sample.subset`: starting from all-ones masks, run the filter loop, then
filter the time arrays, every condition array and the non-decision trials
with `itertools.compress` (the code always rebuilds 3-tuples, with `[]` as
the third element of a 2-tuple condition), and build the result through the
standard constructor. -/
def Sample.subset (s : Sample) (filters : List (String × SubsetFilter)) :
    Except PyError Sample :=
  match subsetLoop s filters
      ⟨List.replicate s.corr.length true, List.replicate s.err.length true,
        List.replicate s.non_decision true⟩ with
  | .error e => .error e
  | .ok m =>
    mkSample (compress s.corr m.mc) (compress s.err m.me) (countTrue m.mn)
      (s.conditions.map fun kc =>
        (kc.1, Cond.mk (compress kc.2.corr m.mc) (compress kc.2.err m.me)
          (some (match kc.2.nd with
                 | some l => compress l m.mn
                 | none => []))))

/-- numpy `+` on two one-dimensional arrays: element-wise numeric addition,
a `ValueError` when the shapes differ.  (Broadcasting of a length-one array
is not modelled; the operands here are same-length trial arrays.) -/
def numpyAdd (a b : List Val) : Except PyError (List Val) :=
  if a.length = b.length then .ok (List.zipWith (· + ·) a b) else .error .valueError

/-- Monadic map over `Except`, building results in order, stopping at the
first error — Python exception propagation through a loop. -/
def mapME {α β : Type} (f : α → Except PyError β) : List α → Except PyError (List β)
  | [] => .ok []
  | x :: xs =>
    match f x with
    | .error e => .error e
    | .ok y =>
      match mapME f xs with
      | .error e => .error e
      | .ok ys => .ok (y :: ys)

/-- The per-condition combination step of `Sample.__add__`: look up the other
Sample's condition of the same name (`KeyError` if absent — unreachable when
the key sets match), add the correct and error arrays element-wise with
numpy `+`, and concatenate the non-decision lists (`sc[k][2] if len(sc[k]) ==
3 else []` is `nd.getD []`; these are Python lists, so `+` concatenates). -/
def addCondK (o : Sample) (kc : String × Cond) : Except PyError (String × Cond) :=
  match o.conditions.lookup kc.1 with
  | none => .error .keyError
  | some oc =>
    match numpyAdd kc.2.corr oc.corr with
    | .error e => .error e
    | .ok c0 =>
      match numpyAdd kc.2.err oc.err with
      | .error e => .error e
      | .ok c1 => .ok (kc.1, Cond.mk c0 c1 (some (kc.2.nd.getD [] ++ oc.nd.getD [])))

/-- `Sample.__add__`: `assert sorted(self.conditions.keys()) ==
sorted(other.conditions.keys())` — two sorted lists are equal exactly when
the key lists agree as multisets, which is how the check is modelled — then
element-wise `+` on the time arrays, integer `+` on the non-decision counts,
the per-condition combination, and the standard constructor. -/
def Sample.add (s o : Sample) : Except PyError Sample :=
  if (↑(s.conditions.map Prod.fst) : Multiset String) = ↑(o.conditions.map Prod.fst)
  then
    match numpyAdd s.corr o.corr with
    | .error e => .error e
    | .ok corr =>
      match numpyAdd s.err o.err with
      | .error e => .error e
      | .ok err =>
        match mapME (addCondK o) s.conditions with
        | .error e => .error e
        | .ok conds => mkSample corr err (s.non_decision + o.non_decision) conds
  else .error .incompatibilityError

/-- The condition names kept by `condition_combinations`: all of them, or
those appearing in `required_conditions` when it is given. -/
def keptNames (s : Sample) (required : Option (List String)) : List String :=
  match required with
  | none => s.conditions.map Prod.fst
  | some req => (s.conditions.map Prod.fst).filter fun n => req.contains n

/-- The observed-value set of a condition, as built inline by
`condition_combinations`: `set(cs[c][0]).union(set(cs[c][1]))`, i.e. the
distinct values of the correct and error partitions.  (A Python set has no
fixed iteration order; `dedup` is a deterministic stand-in carrying the same
elements.) -/
def observedValues (s : Sample) (c : String) : List Val :=
  match s.conditions.lookup c with
  | some cc => (cc.corr ++ cc.err).dedup
  | none => []

/-- `itertools.product`: all selections of one value per list, rightmost
varying fastest. -/
def cartProd : List (List Val) → List (List Val)
  | [] => [[]]
  | vs :: rest => vs.flatMap fun v => (cartProd rest).map fun p => v :: p

/-- The candidate combinations of `condition_combinations`: the Cartesian
product of the kept conditions' observed-value sets, each zipped with the
kept names (`dict(zip(names, p))`). -/
def comboCandidates (s : Sample) (required : Option (List String)) :
    List (List (String × Val)) :=
  (cartProd ((keptNames s required).map (observedValues s))).map
    fun p => (keptNames s required).zip p

/-- The keyword arguments `condition_combinations` passes to `subset`: the
combination's values are numbers, so each becomes a scalar filter. -/
def scalarFilters (a : List (String × Val)) : List (String × SubsetFilter) :=
  a.map fun kv => (kv.1, SubsetFilter.scalar kv.2)

/-- A filtering loop in the `Except` monad, keeping elements whose test
returns true and propagating the first Python exception. -/
def filterE {α : Type} (p : α → Except PyError Bool) : List α → Except PyError (List α)
  | [] => .ok []
  | x :: xs =>
    match p x with
    | .error e => .error e
    | .ok b =>
      match filterE p xs with
      | .error e => .error e
      | .ok rest => .ok (if b then x :: rest else rest)

/-- The boolean a successful `Except` test computed (false on an error;
only consulted where the test is known to succeed). -/
def exceptBool {α : Type} (p : α → Except PyError Bool) (a : α) : Bool :=
  match p a with
  | .ok b => b
  | .error _ => false

/-- The test `len(self.subset(**dict(zip(names, p)))) != 0` applied to one
candidate combination, propagating any exception `subset` raises. -/
def comboTest (s : Sample) (a : List (String × Val)) : Except PyError Bool :=
  match s.subset (scalarFilters a) with
  | .error e => Except.error e
  | .ok sub => Except.ok (decide (sub.len ≠ 0))

/-- `Sample.condition_combinations`: collect the observed-value list of each
kept condition (a `KeyError` if a name were absent), enumerate the Cartesian
product, keep the combinations whose `subset` is non-empty, and fall back to
the singleton empty combination when none is kept. -/
def Sample.condition_combinations (s : Sample) (required : Option (List String)) :
    Except PyError (List (List (String × Val))) :=
  match mapME (fun c =>
      match s.conditions.lookup c with
      | none => Except.error PyError.keyError
      | some cc => Except.ok ((cc.corr ++ cc.err).dedup)) (keptNames s required) with
  | .error e => .error e
  | .ok valueLists =>
    match filterE (comboTest s)
      ((cartProd valueLists).map fun p => (keptNames s required).zip p) with
    | .error e => .error e
    | .ok combs => .ok (if combs.isEmpty then [[]] else combs)

/-- The value `addCondK` computes when the key is present: used to state
what `add` returns for each condition. -/
def addCondPure (o : Sample) (k : String) (c : Cond) : Cond :=
  match o.conditions.lookup k with
  | some oc => Cond.mk (List.zipWith (· + ·) c.corr oc.corr)
      (List.zipWith (· + ·) c.err oc.err) (some (c.nd.getD [] ++ oc.nd.getD []))
  | none => c

/-- The Sample with no trials at all. -/
def emptySample : Sample := ⟨[], [], 0, []⟩

/-- A Sample with one correct and two error trials, no conditions. -/
def exIterSample : Sample := ⟨[1/10], [2/10, 3/10], 0, []⟩

/-- A condition dictionary with a single 3-tuple condition. -/
def exFreezeConds : List (String × Cond) := [("x", Cond.mk [1] [2] (some [3]))]

/-- A Sample with one correct trial whose condition value 5 satisfies the
predicate `v < 10`. -/
def exPredSample : Sample := ⟨[1/10], [], 0, [("x", Cond.mk [5] [] none)]⟩

/-- A Sample exercising every field: a non-decision trial and a 3-tuple
condition. -/
def exRoundtripSample : Sample :=
  ⟨[1/10], [2/10], 1, [("x", Cond.mk [7] [8] (some [9]))]⟩

/-- The spec's `condition_combinations` example: one condition whose only
observed value (in the data) is "red", encoded as 0. -/
def exComboSample : Sample := ⟨[1/10], [], 0, [("color", Cond.mk [0] [] none)]⟩

/-- Left operand for the `add` example. -/
def exAddLeft : Sample := ⟨[1], [2], 1, [("x", Cond.mk [10] [20] (some [30]))]⟩

/-- Right operand for the `add` example: same condition names, same array
lengths, different non-decision count. -/
def exAddRight : Sample := ⟨[4], [5], 2, [("x", Cond.mk [40] [50] (some [60, 70]))]⟩

/-- Claim C4: for every Sample, `length()` equals `len(correct_times) +
len(error_times) + non_decision_count`, and the Sample built from correct
times [.1,.2,.3], error times [.2,.3,.4] and non-decision count 0 has
`length() == 6`. -/
theorem sample_len_eq_sum_and_example :
    (∀ s : Sample, s.len = s.corr.length + s.err.length + s.non_decision) ∧
    ∃ e, mkSample [1/10, 2/10, 3/10] [2/10, 3/10, 4/10] 0 [] = .ok e ∧ e.len = 6 := by
  exact ⟨fun s => rfl, ⟨_, rfl, rfl⟩⟩

/-- Claim C10: the constructor accepts the empty Sample (length 0), and on it
`prob_correct`, `prob_error` and `prob_undecided` all fail with a
division-by-zero error instead of returning a value. -/
theorem empty_sample_prob_zero_division :
    mkSample [] [] 0 [] = .ok emptySample ∧ emptySample.len = 0 ∧
    emptySample.prob_correct = .error .zeroDivisionError ∧
    emptySample.prob_error = .error .zeroDivisionError ∧
    emptySample.prob_undecided = .error .zeroDivisionError := by
  exact ⟨rfl, rfl, rfl, rfl, rfl⟩

/-- Claim C2 (code evaluation): on a Sample with one correct and two error
trials, iterating the correct partition yields the single pair and then, on
the next call, raises `IndexError` rather than `StopIteration`, because
`next` compares the counter against the TOTAL sample length before indexing
the partition array; the error partition likewise overruns at its end. -/
theorem iter_items_index_error :
    iterNext exIterSample true 0 = .yieldPair (1/10) [] ∧
    iterNext exIterSample true 1 = .indexError ∧
    iterNext exIterSample false 2 = .indexError := by
  exact ⟨rfl, rfl, rfl⟩

/-- Claim C3 (code evaluation): for the 1 x 3 table [[0.5, 1, 7]] with the
single condition name required by `@requires('data.shape[1] - 2 ==
len(column_names)')`, `from_numpy_array` builds NO condition at all, because
the body enumerates `column_names[2:]`; this contradicts the method's own
`@ensures('len(column_names) == len(return.condition_names())')` contract
(1 names vs 0 conditions). -/
theorem from_numpy_array_drops_conditions :
    fromNumpyArray [[1/2, 1, 7]] ["color"] = .ok ⟨[1/2], [], 0, []⟩ ∧
    (["color"] : List String).length = 1 := by
  refine ⟨?_, rfl⟩
  norm_num [fromNumpyArray, pyColumn, mkSample, List.filter, List.getD, condOK]

/-- Claim C6 (counterexample): a validly constructed Sample with one
non-decision trial and a 3-tuple condition does NOT get its third
(non-decision) condition array marked read-only: `__init__` only freezes
`self.corr`, `self.err`, `v[0]` and `v[1]`. -/
theorem init_does_not_freeze_nd_array :
    (∃ s, mkSample [5] [4] 1 exFreezeConds = .ok s) ∧
    Buffer.condNd "x" ∉ initFrozen exFreezeConds := by
  exact ⟨⟨_, rfl⟩, by decide⟩

/-- Claim C6 (amended): after construction, `correct_times`, `error_times`
and the correct/error arrays of every condition are marked read-only, but
the third (non-decision) condition array is never marked read-only, so
in-place mutation of that buffer can still succeed. -/
theorem init_frozen_buffers (conds : List (String × Cond)) :
    Buffer.corrTimes ∈ initFrozen conds ∧
    Buffer.errTimes ∈ initFrozen conds ∧
    (∀ k c, (k, c) ∈ conds →
      Buffer.condCorr k ∈ initFrozen conds ∧ Buffer.condErr k ∈ initFrozen conds) ∧
    (∀ k, Buffer.condNd k ∉ initFrozen conds) := by
  refine ⟨by simp [initFrozen], by simp [initFrozen], ?_, ?_⟩
  · intro k c hk
    constructor
    · exact List.mem_append.mpr (Or.inr (List.mem_flatMap.mpr ⟨(k, c), hk, by simp⟩))
    · exact List.mem_append.mpr (Or.inr (List.mem_flatMap.mpr ⟨(k, c), hk, by simp⟩))
  · intro k
    simp [initFrozen]

/-- Witness for the amended Claim C6 at a concrete condition dictionary. -/
theorem init_frozen_buffers_witness :
    Buffer.condCorr "x" ∈ initFrozen exFreezeConds ∧
    Buffer.condNd "x" ∉ initFrozen exFreezeConds :=
  ⟨((init_frozen_buffers exFreezeConds).2.2.1 "x" (Cond.mk [1] [2] (some [3]))
      (by decide)).1,
    (init_frozen_buffers exFreezeConds).2.2.2 "x"⟩

/-- Claim C8 (counterexample): with dt = 3/10 and duration = 1 (well inside
the guard), `t_domain` returns [0, 1/3, 2/3, 1]: the spacing is 1/3, not the
requested dt = 3/10, so the result is not the step-dt grid the claim
describes (duration/dt = 10/3 is not an integer). -/
theorem t_domain_not_step_dt :
    t_domain (3/10) 1 = .ok [0, 1/3, 2/3, 1] ∧ (1/3 : ℚ) ≠ 3/10 := by
  constructor
  · rw [t_domain, if_pos (by norm_num), if_pos (by norm_num)]
    have hq : (1 : ℚ) / (3/10) + 1 = 13/3 := by norm_num
    have hfl : ⌊(13/3 : ℚ)⌋ = 4 := by
      rw [Int.floor_eq_iff]
      norm_num
    rw [hq, hfl]
    rw [show ((4 : ℤ)).toNat = 4 from rfl, linspace,
      if_neg (by norm_num), if_neg (by norm_num),
      show List.range 4 = [0, 1, 2, 3] from rfl]
    norm_num
  · norm_num

/-- Claim C8 (amended): when the duration is dt * n for a positive integer n
(the step divides the duration) and n < 1e5, `t_domain` returns exactly the
ordered grid 0, dt, 2*dt, ..., n*dt of length n + 1 — from 0 to the duration
inclusive with step dt; and for every positive dt and duration with
duration/dt >= 1e5 it fails with the domain guard error. -/
theorem t_domain_grid (dt : ℚ) (n : ℕ) (hdt : 0 < dt) (hn : 0 < n)
    (hb : (n : ℚ) < 100000) :
    t_domain dt (dt * n) = .ok ((List.range (n + 1)).map fun i : ℕ => dt * (i : ℚ)) ∧
    (∀ dt' T' : ℚ, 0 < dt' → 0 < T' → (100000 : ℚ) ≤ T' / dt' →
      t_domain dt' T' = .error .domainError) := by
  constructor
  · have hn0 : (0 : ℚ) < (n : ℚ) := by exact_mod_cast hn
    have hdn : (0 : ℚ) < dt * n := by positivity
    have hdiv : dt * (n : ℚ) / dt = (n : ℚ) := mul_div_cancel_left₀ _ hdt.ne'
    rw [t_domain, if_pos ⟨hdt, hdn⟩, if_pos (by rw [hdiv]; exact hb)]
    have hcast : dt * (n : ℚ) / dt + 1 = ((n + 1 : ℕ) : ℚ) := by
      rw [hdiv]; push_cast; ring
    rw [hcast, Int.floor_natCast, Int.toNat_natCast]
    rw [linspace, if_neg (Nat.succ_ne_zero n), if_neg (by omega)]
    congr 1
    apply List.map_congr_left
    intro i hi
    have hsub : ((n + 1 : ℕ) : ℚ) - 1 = (n : ℚ) := by push_cast; ring
    rw [hsub]
    field_simp
    ring
  · intro dt' T' h1 h2 h3
    rw [t_domain, if_pos ⟨h1, h2⟩, if_neg (not_lt.mpr h3)]

/-- Witness for the amended Claim C8: dt = .01, duration = 2 gives the grid
of length 201, and requesting duration = 1e6 with dt = .01 fails with the
domain guard error. -/
theorem t_domain_grid_witness :
    t_domain (1/100) 2 = .ok ((List.range 201).map fun i : ℕ => (1/100 : ℚ) * (i : ℚ)) ∧
    ((List.range 201).map fun i : ℕ => (1/100 : ℚ) * (i : ℚ)).length = 201 ∧
    t_domain (1/100) 1000000 = .error .domainError := by
  have h := t_domain_grid (1/100) 200 (by norm_num) (by norm_num) (by norm_num)
  refine ⟨?_, by rw [List.length_map, List.length_range],
    h.2 (1/100) 1000000 (by norm_num) (by norm_num) (by norm_num)⟩
  have h1 := h.1
  rw [show ((1 : ℚ)/100) * ((200 : ℕ) : ℚ) = 2 from by norm_num] at h1
  exact h1

/-- Decomposition of the constructor's per-condition assertions. -/
theorem condOK_iff (ncorr nerr nd : Nat) (c : Cond) :
    condOK ncorr nerr nd c = true ↔
      c.corr.length = ncorr ∧ c.err.length = nerr ∧ (c.nd.getD []).length = nd := by
  obtain ⟨corr, err, nd'⟩ := c
  cases nd' with
  | none =>
    simp only [condOK, Bool.and_eq_true, beq_iff_eq, Option.getD_none, List.length_nil]
    constructor
    · rintro ⟨⟨h1, h2⟩, h3⟩; exact ⟨h1, h2, h3.symm⟩
    · rintro ⟨h1, h2, h3⟩; exact ⟨⟨h1, h2⟩, h3.symm⟩
  | some l =>
    simp only [condOK, Bool.and_eq_true, beq_iff_eq, Option.getD_some, and_assoc]

/-- `itertools.compress` with an all-ones mask of the sequence's length
keeps the sequence unchanged. -/
theorem compress_replicate_true {α : Type} (xs : List α) :
    compress xs (List.replicate xs.length true) = xs := by
  induction xs with
  | nil => rfl
  | cons x xs ih =>
    have hstep : compress (x :: xs) (true :: List.replicate xs.length true) =
        x :: compress xs (List.replicate xs.length true) := rfl
    rw [List.length_cons, List.replicate_succ, hstep, ih]

/-- `itertools.compress` with an all-zeros mask keeps nothing. -/
theorem compress_false {α : Type} (xs : List α) (m : List Bool)
    (h : ∀ b ∈ m, b = false) : compress xs m = [] := by
  induction xs generalizing m with
  | nil => cases m <;> rfl
  | cons x xs ih =>
    cases m with
    | nil => rfl
    | cons b m =>
      have hb : b = false := h b (List.mem_cons_self b m)
      subst hb
      have hstep : compress (x :: xs) (false :: m) = compress xs m := rfl
      rw [hstep]
      exact ih m fun b hb => h b (List.mem_cons_of_mem _ hb)

/-- Summing an all-ones mask gives its length. -/
theorem countTrue_replicate_true (n : Nat) :
    countTrue (List.replicate n true) = n := by
  induction n with
  | zero => rfl
  | succ n ih =>
    rw [List.replicate_succ]
    simp only [countTrue, List.countP_cons] at ih ⊢
    rw [ih]
    rfl

/-- Summing an all-zeros mask gives zero. -/
theorem countTrue_false (m : List Bool) (h : ∀ b ∈ m, b = false) :
    countTrue m = 0 := by
  induction m with
  | nil => rfl
  | cons b m ih =>
    have hb : b = false := h b (List.mem_cons_self b m)
    subst hb
    simp only [countTrue, List.countP_cons] at ih ⊢
    rw [ih fun b hb => h b (List.mem_cons_of_mem _ hb)]
    rfl

/-- Claim C1 (code evaluation): filtering with the predicate `v < 10` on a
condition whose only correct-trial value is 5 satisfies the predicate, yet
`subset` returns the EMPTY Sample: the membership-or-equality test is an
`else` of the container check rather than of the callable check, so a
callable filter is additionally compared with `==` against every stored
value, which is always false for numbers. -/
theorem subset_predicate_returns_empty :
    (fun v : Val => decide (v < 10)) 5 = true ∧
    exPredSample.subset [("x", SubsetFilter.pred fun v => decide (v < 10))] =
      .ok ⟨[], [], 0, [("x", Cond.mk [] [] (some []))]⟩ := by
  exact ⟨rfl, rfl⟩

/-- Claim C9: `subset()` with no filters returns a Sample with the same
length, the same correct and error time sequences, the same non-decision
count, and every condition array unchanged (the code rebuilds each condition
as a 3-tuple, so an absent non-decision array comes back as the empty one). -/
theorem subset_no_filters_roundtrip (s : Sample) (hs : s.validB = true) :
    ∃ r, s.subset [] = .ok r ∧ r.len = s.len ∧ r.corr = s.corr ∧ r.err = s.err ∧
      r.non_decision = s.non_decision ∧
      r.conditions = s.conditions.map
        (fun kc => (kc.1, Cond.mk kc.2.corr kc.2.err (some (kc.2.nd.getD [])))) := by
  have hall := List.all_eq_true.mp hs
  refine ⟨⟨s.corr, s.err, s.non_decision,
    s.conditions.map fun kc => (kc.1, Cond.mk kc.2.corr kc.2.err (some (kc.2.nd.getD [])))⟩,
    ?_, rfl, rfl, rfl, rfl, rfl⟩
  show Sample.subset s [] = _
  unfold Sample.subset
  simp only [subsetLoop]
  have hconds : ∀ kc ∈ s.conditions,
      (kc.1, Cond.mk (compress kc.2.corr (List.replicate s.corr.length true))
        (compress kc.2.err (List.replicate s.err.length true))
        (some (match kc.2.nd with
               | some l => compress l (List.replicate s.non_decision true)
               | none => []))) =
      (kc.1, Cond.mk kc.2.corr kc.2.err (some (kc.2.nd.getD []))) := by
    intro kc hkc
    obtain ⟨h1, h2, h3⟩ := (condOK_iff _ _ _ _).mp (hall kc hkc)
    have e1 : compress kc.2.corr (List.replicate s.corr.length true) = kc.2.corr := by
      rw [← h1]; exact compress_replicate_true _
    have e2 : compress kc.2.err (List.replicate s.err.length true) = kc.2.err := by
      rw [← h2]; exact compress_replicate_true _
    have e3 : (match kc.2.nd with
               | some l => compress l (List.replicate s.non_decision true)
               | none => []) = kc.2.nd.getD [] := by
      cases hnd : kc.2.nd with
      | none => rfl
      | some l =>
        have hl : l.length = s.non_decision := by
          rw [hnd] at h3; simpa using h3
        simp only [Option.getD_some]
        rw [← hl]
        exact compress_replicate_true l
    rw [e1, e2, e3]
  rw [compress_replicate_true s.corr, compress_replicate_true s.err,
    countTrue_replicate_true, List.map_congr_left hconds]
  have hvalid2 : (s.conditions.map fun kc =>
      (kc.1, Cond.mk kc.2.corr kc.2.err (some (kc.2.nd.getD [])))).all
      (fun kc => condOK s.corr.length s.err.length s.non_decision kc.2) = true := by
    rw [List.all_eq_true]
    intro kc hkc
    rw [List.mem_map] at hkc
    obtain ⟨kc0, hkc0, rfl⟩ := hkc
    obtain ⟨h1, h2, h3⟩ := (condOK_iff _ _ _ _).mp (hall kc0 hkc0)
    exact (condOK_iff _ _ _ _).mpr ⟨h1, h2, by simpa using h3⟩
  rw [mkSample, if_pos hvalid2]

/-- Witness for Claim C9 on a Sample exercising every field. -/
theorem subset_no_filters_roundtrip_witness :
    ∃ r, exRoundtripSample.subset [] = .ok r ∧ r.len = exRoundtripSample.len ∧
      r.corr = exRoundtripSample.corr ∧ r.err = exRoundtripSample.err ∧
      r.non_decision = exRoundtripSample.non_decision ∧
      r.conditions = exRoundtripSample.conditions.map
        (fun kc => (kc.1, Cond.mk kc.2.corr kc.2.err (some (kc.2.nd.getD [])))) :=
  subset_no_filters_roundtrip exRoundtripSample (by decide)

/-- A successful `List.lookup` result is an entry of the list. -/
theorem lookup_some_mem {β : Type} (k : String) (v : β) :
    ∀ l : List (String × β), l.lookup k = some v → (k, v) ∈ l := by
  intro l
  induction l with
  | nil => intro h; exact Option.noConfusion h
  | cons kv l ih =>
    intro h
    obtain ⟨k', b⟩ := kv
    rw [List.lookup] at h
    cases he : (k == k') with
    | true =>
      simp only [he] at h
      obtain rfl := eq_of_beq he
      obtain rfl : b = v := Option.some.inj h
      exact List.mem_cons_self _ _
    | false =>
      simp only [he] at h
      exact List.mem_cons_of_mem _ (ih h)

/-- A key occurring among the first components has a `List.lookup` value. -/
theorem mem_keys_lookup {β : Type} (k : String) :
    ∀ l : List (String × β), k ∈ l.map Prod.fst → ∃ v, l.lookup k = some v := by
  intro l
  induction l with
  | nil => intro h; exact absurd h (List.not_mem_nil k)
  | cons kv l ih =>
    intro h
    obtain ⟨k', b⟩ := kv
    by_cases he : k = k'
    · subst he
      exact ⟨b, by rw [List.lookup]; simp⟩
    · have hk : k ∈ l.map Prod.fst := by
        rcases List.mem_cons.mp h with h1 | h1
        · exact absurd h1 he
        · exact h1
      obtain ⟨v, hv⟩ := ih hk
      refine ⟨v, ?_⟩
      rw [List.lookup]
      simp only [beq_eq_false_iff_ne.mpr he]
      exact hv

/-- `List.lookup` through a key-preserving value map. -/
theorem lookup_map_value {β γ : Type} (g : String → β → γ) (k : String) :
    ∀ l : List (String × β),
      (l.map fun kc => (kc.1, g kc.1 kc.2)).lookup k = (l.lookup k).map (g k) := by
  intro l
  induction l with
  | nil => rfl
  | cons kv l ih =>
    obtain ⟨k', b⟩ := kv
    rw [List.map_cons, List.lookup, List.lookup]
    cases he : (k == k') with
    | true =>
      obtain rfl := eq_of_beq he
      rfl
    | false => simp only [he, ih]

/-- `mapME` succeeds pointwise. -/
theorem mapME_ok_of {α β : Type} (f : α → Except PyError β) (g : α → β) :
    ∀ l : List α, (∀ a ∈ l, f a = .ok (g a)) → mapME f l = .ok (l.map g) := by
  intro l
  induction l with
  | nil => intro _; rfl
  | cons x xs ih =>
    intro h
    have h1 := h x (List.mem_cons_self x xs)
    have h2 := ih fun a ha => h a (List.mem_cons_of_mem _ ha)
    rw [mapME, h1, h2]
    rfl

/-- `mapME` never raises an error its body never raises. -/
theorem mapME_ne_error {α β : Type} (f : α → Except PyError β) (e : PyError) :
    ∀ l : List α, (∀ a ∈ l, f a ≠ .error e) → mapME f l ≠ .error e := by
  intro l
  induction l with
  | nil => intro _ h; exact Except.noConfusion h
  | cons x xs ih =>
    intro h
    rw [mapME]
    cases hfx : f x with
    | error e' =>
      intro hc
      simp only [hfx] at hc
      injection hc with hc
      subst hc
      exact h x (List.mem_cons_self x xs) hfx
    | ok y =>
      simp only [hfx]
      cases hm : mapME f xs with
      | error e'' =>
        simp only [hm]
        intro hc
        injection hc with hc
        subst hc
        exact ih (fun a ha => h a (List.mem_cons_of_mem _ ha)) hm
      | ok ys =>
        simp only [hm]
        intro hc
        exact Except.noConfusion hc

/-- The only error `numpyAdd` raises is the shape mismatch `ValueError`. -/
theorem numpyAdd_error (a b : List Val) (e : PyError)
    (h : numpyAdd a b = .error e) : e = .valueError := by
  unfold numpyAdd at h
  split at h
  · exact Except.noConfusion h
  · injection h with h; exact h.symm

/-- The only error the constructor raises is the validation error. -/
theorem mkSample_error (corr err : List Val) (nd : Nat) (conds : List (String × Cond))
    (e : PyError) (h : mkSample corr err nd conds = .error e) : e = .validationError := by
  unfold mkSample at h
  split at h
  · exact Except.noConfusion h
  · injection h with h; exact h.symm

/-- The per-condition combination step never raises the incompatibility
error (only `KeyError` or the numpy `ValueError`). -/
theorem addCondK_ne_incompat (o : Sample) (kc : String × Cond) :
    addCondK o kc ≠ .error .incompatibilityError := by
  cases h0 : o.conditions.lookup kc.1 with
  | none =>
    simp only [addCondK, h0]
    intro hc; injection hc with hc; exact PyError.noConfusion hc
  | some oc =>
    cases h1 : numpyAdd kc.2.corr oc.corr with
    | error e =>
      obtain rfl := numpyAdd_error _ _ _ h1
      simp only [addCondK, h0, h1]
      intro hc; injection hc with hc; exact PyError.noConfusion hc
    | ok c0 =>
      cases h2 : numpyAdd kc.2.err oc.err with
      | error e =>
        obtain rfl := numpyAdd_error _ _ _ h2
        simp only [addCondK, h0, h1, h2]
        intro hc; injection hc with hc; exact PyError.noConfusion hc
      | ok c1 =>
        simp only [addCondK, h0, h1, h2]
        intro hc; exact Except.noConfusion hc

/-- Two Nodup key lists agree as multisets exactly when they agree as sets:
the modelling bridge for `sorted(keys) == sorted(keys)`. -/
theorem keys_multiset_eq_iff {β : Type} (l l' : List (String × β))
    (hn : (l.map Prod.fst).Nodup) (hn' : (l'.map Prod.fst).Nodup) :
    ((↑(l.map Prod.fst) : Multiset String) = ↑(l'.map Prod.fst)) ↔
      ∀ k, k ∈ l.map Prod.fst ↔ k ∈ l'.map Prod.fst := by
  constructor
  · intro h k
    exact (Multiset.coe_eq_coe.mp h).mem_iff
  · intro h
    refine Multiset.coe_eq_coe.mpr (List.Subperm.antisymm ?_ ?_)
    · exact hn.subperm fun x hx => (h x).mp hx
    · exact hn'.subperm fun x hx => (h x).mpr hx

/-- Claim C5: `add` fails with the incompatibility error exactly when the
two condition-name sets differ (order-independent comparison); otherwise,
with matching array lengths (as element-wise numpy addition requires), it
returns a Sample whose correct and error time sequences are the element-wise
numeric sums, whose non-decision count is the integer sum, whose
per-condition correct/error arrays are element-wise added and per-condition
non-decision lists concatenated, built through the standard constructor's
validation. -/
theorem add_spec (s o : Sample) (hs : s.validB = true) (ho : o.validB = true)
    (hns : (s.conditions.map Prod.fst).Nodup)
    (hno : (o.conditions.map Prod.fst).Nodup) :
    (s.add o = .error .incompatibilityError ↔
      ¬ ∀ k, k ∈ s.conditions.map Prod.fst ↔ k ∈ o.conditions.map Prod.fst) ∧
    ((∀ k, k ∈ s.conditions.map Prod.fst ↔ k ∈ o.conditions.map Prod.fst) →
      s.corr.length = o.corr.length → s.err.length = o.err.length →
      ∃ r, s.add o = .ok r ∧
        r.corr = List.zipWith (· + ·) s.corr o.corr ∧
        r.err = List.zipWith (· + ·) s.err o.err ∧
        r.non_decision = s.non_decision + o.non_decision ∧
        ∀ k sc oc, s.conditions.lookup k = some sc →
          o.conditions.lookup k = some oc →
          r.conditions.lookup k = some (Cond.mk
            (List.zipWith (· + ·) sc.corr oc.corr)
            (List.zipWith (· + ·) sc.err oc.err)
            (some (sc.nd.getD [] ++ oc.nd.getD [])))) := by
  have hiff := keys_multiset_eq_iff s.conditions o.conditions hns hno
  have hsall := List.all_eq_true.mp hs
  have hoall := List.all_eq_true.mp ho
  constructor
  · constructor
    · intro hadd hall
      have hm := hiff.mpr hall
      rw [Sample.add, if_pos hm] at hadd
      cases h1 : numpyAdd s.corr o.corr with
      | error e =>
        obtain rfl := numpyAdd_error _ _ _ h1
        simp only [h1] at hadd
        injection hadd with hadd
        exact PyError.noConfusion hadd
      | ok corr =>
        simp only [h1] at hadd
        cases h2 : numpyAdd s.err o.err with
        | error e =>
          obtain rfl := numpyAdd_error _ _ _ h2
          simp only [h2] at hadd
          injection hadd with hadd
          exact PyError.noConfusion hadd
        | ok err =>
          simp only [h2] at hadd
          cases h3 : mapME (addCondK o) s.conditions with
          | error e =>
            simp only [h3] at hadd
            injection hadd with hadd
            subst hadd
            exact mapME_ne_error _ _ _ (fun a _ => addCondK_ne_incompat o a) h3
          | ok conds =>
            simp only [h3] at hadd
            have := mkSample_error _ _ _ _ _ hadd
            exact PyError.noConfusion this
    · intro hne
      have hm : ¬ ((↑(s.conditions.map Prod.fst) : Multiset String) =
          ↑(o.conditions.map Prod.fst)) := fun h => hne (hiff.mp h)
      rw [Sample.add, if_neg hm]
  · intro hall hlc hle
    have hm := hiff.mpr hall
    have h1 : numpyAdd s.corr o.corr = .ok (List.zipWith (· + ·) s.corr o.corr) := by
      rw [numpyAdd, if_pos hlc]
    have h2 : numpyAdd s.err o.err = .ok (List.zipWith (· + ·) s.err o.err) := by
      rw [numpyAdd, if_pos hle]
    have hmap : mapME (addCondK o) s.conditions = .ok (s.conditions.map fun kc =>
        (kc.1, addCondPure o kc.1 kc.2)) := by
      apply mapME_ok_of
      intro kc hkc
      obtain ⟨oc, hoc⟩ := mem_keys_lookup kc.1 o.conditions
        ((hall kc.1).mp (List.mem_map.mpr ⟨kc, hkc, rfl⟩))
      obtain ⟨hsc1, hsc2, hsc3⟩ := (condOK_iff _ _ _ _).mp (hsall kc hkc)
      obtain ⟨hoc1, hoc2, hoc3⟩ :=
        (condOK_iff _ _ _ _).mp (hoall (kc.1, oc) (lookup_some_mem _ _ _ hoc))
      have hcl : kc.2.corr.length = oc.corr.length := by rw [hsc1, hoc1, hlc]
      have hel : kc.2.err.length = oc.err.length := by rw [hsc2, hoc2, hle]
      have ha : numpyAdd kc.2.corr oc.corr =
          .ok (List.zipWith (· + ·) kc.2.corr oc.corr) := by
        rw [numpyAdd, if_pos hcl]
      have hb : numpyAdd kc.2.err oc.err =
          .ok (List.zipWith (· + ·) kc.2.err oc.err) := by
        rw [numpyAdd, if_pos hel]
      simp only [addCondK, addCondPure, hoc, ha, hb]
    refine ⟨⟨List.zipWith (· + ·) s.corr o.corr, List.zipWith (· + ·) s.err o.err,
      s.non_decision + o.non_decision,
      s.conditions.map fun kc => (kc.1, addCondPure o kc.1 kc.2)⟩, ?_, rfl, rfl, rfl, ?_⟩
    · rw [Sample.add, if_pos hm]
      simp only [h1, h2, hmap]
      have hv : ((s.conditions.map fun kc => (kc.1, addCondPure o kc.1 kc.2)).all
          fun kc => condOK (List.zipWith (· + ·) s.corr o.corr).length
            (List.zipWith (· + ·) s.err o.err).length
            (s.non_decision + o.non_decision) kc.2) = true := by
        rw [List.all_eq_true]
        intro kc hkc
        rw [List.mem_map] at hkc
        obtain ⟨kc0, hkc0, rfl⟩ := hkc
        obtain ⟨oc, hoc⟩ := mem_keys_lookup kc0.1 o.conditions
          ((hall kc0.1).mp (List.mem_map.mpr ⟨kc0, hkc0, rfl⟩))
        obtain ⟨hsc1, hsc2, hsc3⟩ := (condOK_iff _ _ _ _).mp (hsall kc0 hkc0)
        obtain ⟨hoc1, hoc2, hoc3⟩ :=
          (condOK_iff _ _ _ _).mp (hoall (kc0.1, oc) (lookup_some_mem _ _ _ hoc))
        apply (condOK_iff _ _ _ _).mpr
        simp only [addCondPure, hoc]
        refine ⟨?_, ?_, ?_⟩
        · rw [List.length_zipWith, List.length_zipWith, hsc1, hoc1]
        · rw [List.length_zipWith, List.length_zipWith, hsc2, hoc2]
        · simp only [Option.getD_some, List.length_append, hsc3, hoc3]
      rw [mkSample, if_pos hv]
    · intro k sc oc hsc hoc
      rw [lookup_map_value (addCondPure o) k s.conditions, hsc]
      simp only [Option.map_some', addCondPure, hoc]

/-- Witness for Claim C5 on two concrete compatible Samples. -/
theorem add_spec_witness :
    ∃ r, exAddLeft.add exAddRight = .ok r ∧
      r.corr = List.zipWith (· + ·) exAddLeft.corr exAddRight.corr ∧
      r.err = List.zipWith (· + ·) exAddLeft.err exAddRight.err ∧
      r.non_decision = exAddLeft.non_decision + exAddRight.non_decision ∧
      ∀ k sc oc, exAddLeft.conditions.lookup k = some sc →
        exAddRight.conditions.lookup k = some oc →
        r.conditions.lookup k = some (Cond.mk
          (List.zipWith (· + ·) sc.corr oc.corr)
          (List.zipWith (· + ·) sc.err oc.err)
          (some (sc.nd.getD [] ++ oc.nd.getD []))) :=
  (add_spec exAddLeft exAddRight (by decide) (by decide) (by decide) (by decide)).2
    (fun k => Iff.rfl) rfl rfl

/-- `compress` keeps a selected element. -/
theorem compress_cons_true {α : Type} (x : α) (xs : List α) (m : List Bool) :
    compress (x :: xs) (true :: m) = x :: compress xs m := rfl

/-- `compress` drops a deselected element. -/
theorem compress_cons_false {α : Type} (x : α) (xs : List α) (m : List Bool) :
    compress (x :: xs) (false :: m) = compress xs m := rfl

/-- `compress` with an empty mask keeps nothing. -/
theorem compress_nil_mask {α : Type} (xs : List α) : compress xs [] = [] := by
  cases xs <;> rfl

/-- Sequences of equal length compressed by the same mask keep equally many
elements. -/
theorem compress_length_congr {α β : Type} :
    ∀ (m : List Bool) (xs : List α) (ys : List β), xs.length = ys.length →
      (compress xs m).length = (compress ys m).length := by
  intro m
  induction m with
  | nil => intro xs ys h; rw [compress_nil_mask, compress_nil_mask]; rfl
  | cons b m ih =>
    intro xs ys h
    cases xs with
    | nil =>
      cases ys with
      | nil => rfl
      | cons y ys => exact absurd h (by simp)
    | cons x xs =>
      cases ys with
      | nil => exact absurd h (by simp)
      | cons y ys =>
        have h' : xs.length = ys.length := by simpa using h
        cases b
        · rw [compress_cons_false, compress_cons_false]
          exact ih xs ys h'
        · rw [compress_cons_true, compress_cons_true]
          simp only [List.length_cons]
          rw [ih xs ys h']

/-- Compressing a sequence as long as the mask keeps `sum(mask)` elements. -/
theorem compress_length_countTrue {α : Type} :
    ∀ (m : List Bool) (xs : List α), xs.length = m.length →
      (compress xs m).length = countTrue m := by
  intro m
  induction m with
  | nil => intro xs h; rw [compress_nil_mask]; rfl
  | cons b m ih =>
    intro xs h
    cases xs with
    | nil => exact absurd h (by simp)
    | cons x xs =>
      have h' : xs.length = m.length := by simpa using h
      cases b
      · rw [compress_cons_false, ih xs h']
        simp [countTrue, List.countP_cons]
      · rw [compress_cons_true]
        simp only [List.length_cons]
        rw [ih xs h']
        simp [countTrue, List.countP_cons]

/-- One filter step shortens a mask to the shorter of mask and values. -/
theorem stepMask_length (m : List Bool) (f : SubsetFilter) (xs : List Val) :
    (stepMask m f xs).length = min m.length xs.length := by
  cases f with
  | pred p =>
    simp only [stepMask, andMask, List.length_zipWith, List.length_map]
    omega
  | mem l =>
    simp only [stepMask, andMask, List.length_zipWith, List.length_map]
  | scalar v =>
    simp only [stepMask, andMask, List.length_zipWith, List.length_map]

/-- On a valid Sample, the filter loop of `subset` succeeds whenever every
filter names an existing condition, and preserves the mask lengths. -/
theorem subsetLoop_ok (s : Sample) (hs : s.validB = true) :
    ∀ (fs : List (String × SubsetFilter)) (m : Masks),
      (∀ kf ∈ fs, kf.1 ∈ s.conditions.map Prod.fst) →
      m.mc.length = s.corr.length → m.me.length = s.err.length →
      m.mn.length = s.non_decision →
      ∃ m', subsetLoop s fs m = .ok m' ∧ m'.mc.length = s.corr.length ∧
        m'.me.length = s.err.length ∧ m'.mn.length = s.non_decision := by
  intro fs
  induction fs with
  | nil => intro m hk h1 h2 h3; exact ⟨m, rfl, h1, h2, h3⟩
  | cons kf rest ih =>
    intro m hk h1 h2 h3
    obtain ⟨c, hc⟩ := mem_keys_lookup kf.1 s.conditions (hk kf (List.mem_cons_self _ _))
    obtain ⟨hc1, hc2, hc3⟩ := (condOK_iff _ _ _ _).mp
      (List.all_eq_true.mp hs (kf.1, c) (lookup_some_mem _ _ _ hc))
    simp only [subsetLoop, hc]
    by_cases hnd : s.non_decision = 0
    · rw [if_pos hnd]
      apply ih
      · exact fun kf' h => hk kf' (List.mem_cons_of_mem _ h)
      · rw [stepMask_length, h1, hc1]
        exact Nat.min_self _
      · rw [stepMask_length, h2, hc2]
        exact Nat.min_self _
      · exact hnd.symm
    · rw [if_neg hnd]
      cases hcnd : c.nd with
      | none =>
        rw [hcnd] at hc3
        exact absurd hc3.symm hnd
      | some l =>
        rw [hcnd] at hc3
        simp only [Option.getD_some] at hc3
        apply ih
        · exact fun kf' h => hk kf' (List.mem_cons_of_mem _ h)
        · rw [stepMask_length, h1, hc1]
          exact Nat.min_self _
        · rw [stepMask_length, h2, hc2]
          exact Nat.min_self _
        · rw [stepMask_length, h3, hc3]
          exact Nat.min_self _

/-- On a valid Sample, `subset` succeeds whenever every filter names an
existing condition. -/
theorem subset_isOk (s : Sample) (hs : s.validB = true)
    (fs : List (String × SubsetFilter))
    (hk : ∀ kf ∈ fs, kf.1 ∈ s.conditions.map Prod.fst) :
    ∃ r, s.subset fs = .ok r := by
  obtain ⟨m, hm, hm1, hm2, hm3⟩ := subsetLoop_ok s hs fs
    ⟨List.replicate s.corr.length true, List.replicate s.err.length true,
      List.replicate s.non_decision true⟩ hk (by simp) (by simp) (by simp)
  have hv : ((s.conditions.map fun kc =>
      (kc.1, Cond.mk (compress kc.2.corr m.mc) (compress kc.2.err m.me)
        (some (match kc.2.nd with
               | some l => compress l m.mn
               | none => [])))).all
      fun kc => condOK (compress s.corr m.mc).length (compress s.err m.me).length
        (countTrue m.mn) kc.2) = true := by
    rw [List.all_eq_true]
    intro kc hkc
    rw [List.mem_map] at hkc
    obtain ⟨kc0, hkc0, rfl⟩ := hkc
    obtain ⟨hc1, hc2, hc3⟩ := (condOK_iff _ _ _ _).mp (List.all_eq_true.mp hs kc0 hkc0)
    apply (condOK_iff _ _ _ _).mpr
    refine ⟨compress_length_congr m.mc kc0.2.corr s.corr hc1,
      compress_length_congr m.me kc0.2.err s.err hc2, ?_⟩
    cases hnd : kc0.2.nd with
    | none =>
      rw [hnd] at hc3
      simp only [Option.getD_some]
      have hmn : m.mn = [] := List.length_eq_zero.mp (by rw [hm3, ← hc3]; rfl)
      rw [hmn]
      rfl
    | some l =>
      rw [hnd] at hc3
      simp only [Option.getD_some] at hc3 ⊢
      exact compress_length_countTrue m.mn l (by rw [hc3, hm3])
  exact ⟨_, by simp only [Sample.subset, hm]; rw [mkSample, if_pos hv]⟩

/-- `filterE` with an everywhere-successful test is a plain filter. -/
theorem filterE_eq_filter {α : Type} (p : α → Except PyError Bool) :
    ∀ l : List α, (∀ a ∈ l, ∃ b, p a = .ok b) →
      filterE p l = .ok (l.filter fun a => exceptBool p a) := by
  intro l
  induction l with
  | nil => intro _; rfl
  | cons x xs ih =>
    intro h
    obtain ⟨b, hb⟩ := h x (List.mem_cons_self x xs)
    have hx : exceptBool p x = b := by simp only [exceptBool, hb]
    rw [filterE, hb, ih fun a ha => h a (List.mem_cons_of_mem _ ha), List.filter_cons, hx]

/-- Claim C7: on every valid Sample, `condition_combinations` succeeds and
returns exactly those assignments from the Cartesian product of each kept
condition's observed-value set (conditions outside `required_conditions`
excluded when it is given) for which `subset` with all those name=value
pairs is non-empty; when no candidate combination is non-empty — including
when there are zero conditions on an empty Sample — it returns the
singleton list holding the empty combination. -/
theorem condition_combinations_spec (s : Sample) (required : Option (List String))
    (hs : s.validB = true) :
    ∃ L, s.condition_combinations required = .ok L ∧
      ∀ a, a ∈ L ↔
        ((a ∈ comboCandidates s required ∧
          ∃ r, s.subset (scalarFilters a) = .ok r ∧ r.len ≠ 0) ∨
         ((∀ b ∈ comboCandidates s required,
            ∃ r, s.subset (scalarFilters b) = .ok r ∧ r.len = 0) ∧ a = [])) := by
  have hnames : ∀ c ∈ keptNames s required, c ∈ s.conditions.map Prod.fst := by
    intro c hc
    cases required with
    | none => exact hc
    | some req => exact (List.mem_filter.mp hc).1
  have hvals : mapME (fun c =>
      match s.conditions.lookup c with
      | none => Except.error PyError.keyError
      | some cc => Except.ok ((cc.corr ++ cc.err).dedup)) (keptNames s required) =
      .ok ((keptNames s required).map (observedValues s)) := by
    apply mapME_ok_of
    intro c hc
    obtain ⟨cc, hcc⟩ := mem_keys_lookup c s.conditions (hnames c hc)
    simp only [hcc, observedValues]
  have hcand : ∀ a ∈ comboCandidates s required,
      ∀ kf ∈ scalarFilters a, kf.1 ∈ s.conditions.map Prod.fst := by
    intro a ha kf hkf
    rw [scalarFilters, List.mem_map] at hkf
    obtain ⟨kv, hkv, rfl⟩ := hkf
    rw [comboCandidates, List.mem_map] at ha
    obtain ⟨p, hp, rfl⟩ := ha
    obtain ⟨k, v⟩ := kv
    exact hnames _ (List.of_mem_zip hkv).1
  have hpok : ∀ a ∈ comboCandidates s required, ∃ b, comboTest s a = Except.ok b := by
    intro a ha
    obtain ⟨r, hr⟩ := subset_isOk s hs (scalarFilters a) (hcand a ha)
    exact ⟨decide (r.len ≠ 0), by simp only [comboTest, hr]⟩
  have hfe := filterE_eq_filter (comboTest s) (comboCandidates s required) hpok
  refine ⟨if ((comboCandidates s required).filter
        fun x => exceptBool (comboTest s) x).isEmpty then [[]]
      else (comboCandidates s required).filter fun x => exceptBool (comboTest s) x,
    ?_, ?_⟩
  · simp only [Sample.condition_combinations, hvals]
    rw [show ((cartProd ((keptNames s required).map (observedValues s))).map
        fun p => (keptNames s required).zip p) = comboCandidates s required from rfl]
    rw [hfe]
  · intro a
    by_cases hemp : ((comboCandidates s required).filter
        fun x => exceptBool (comboTest s) x).isEmpty
    · rw [if_pos hemp]
      rw [List.isEmpty_iff] at hemp
      have hallz : ∀ b ∈ comboCandidates s required,
          ∃ r, s.subset (scalarFilters b) = .ok r ∧ r.len = 0 := by
        intro b hb
        obtain ⟨r, hr⟩ := subset_isOk s hs (scalarFilters b) (hcand b hb)
        refine ⟨r, hr, ?_⟩
        by_contra hne
        have hq : exceptBool (comboTest s) b = true := by
          simp only [exceptBool, comboTest, hr, decide_eq_true_eq]
          exact hne
        have hbF : b ∈ (comboCandidates s required).filter
            fun x => exceptBool (comboTest s) x := List.mem_filter.mpr ⟨hb, hq⟩
        rw [hemp] at hbF
        exact List.not_mem_nil b hbF
      constructor
      · intro haL
        have ha0 : a = [] := by simpa using haL
        exact Or.inr ⟨hallz, ha0⟩
      · rintro (⟨hain, r, hr, hrlen⟩ | ⟨_, rfl⟩)
        · obtain ⟨r', hr', hz⟩ := hallz a hain
          rw [hr] at hr'
          obtain rfl := Except.ok.inj hr'
          exact absurd hz hrlen
        · simp
    · rw [if_neg hemp]
      constructor
      · intro haF
        obtain ⟨hain, hq⟩ := List.mem_filter.mp haF
        obtain ⟨r, hr⟩ := subset_isOk s hs (scalarFilters a) (hcand a hain)
        simp only [exceptBool, comboTest, hr, decide_eq_true_eq] at hq
        exact Or.inl ⟨hain, r, hr, hq⟩
      · rintro (⟨hain, r, hr, hrlen⟩ | ⟨hallz, rfl⟩)
        · apply List.mem_filter.mpr
          refine ⟨hain, ?_⟩
          simp only [exceptBool, comboTest, hr, decide_eq_true_eq]
          exact hrlen
        · exfalso
          apply hemp
          rw [List.isEmpty_iff, List.filter_eq_nil_iff]
          intro b hb
          obtain ⟨r, hr, hz⟩ := hallz b hb
          simp only [exceptBool, comboTest, hr, decide_eq_true_eq]
          simp [hz]

/-- Witness for Claim C7 on the spec's one-condition example (red encoded
as 0): `condition_combinations()` succeeds and satisfies the membership
characterization. -/
theorem condition_combinations_spec_witness :
    ∃ L, exComboSample.condition_combinations none = .ok L ∧
      ∀ a, a ∈ L ↔
        ((a ∈ comboCandidates exComboSample none ∧
          ∃ r, exComboSample.subset (scalarFilters a) = .ok r ∧ r.len ≠ 0) ∨
         ((∀ b ∈ comboCandidates exComboSample none,
            ∃ r, exComboSample.subset (scalarFilters b) = .ok r ∧ r.len = 0) ∧
          a = [])) :=
  condition_combinations_spec exComboSample none (by decide)

end PyDDM
